import Mathlib

/-!
Verification of the RosettaNet viewer core (parsing engine, definition
lookup, visibility projection, search/path resolution) against its
natural-language specification.  The JavaScript source is shallowly
embedded: a document is modelled at the DOM level as a list of tables,
each table a list of rows, each row the list of its cells' text
contents.  JavaScript strings become Lean `String`, JS objects used as
maps become association lists where the most recent write is found
first, JS `Set` becomes `Finset Nat`, and the two potentially
non-terminating `while` loops (the visibility ancestor walk and the
keyword-search ancestor walk) are given an explicit fuel parameter,
`none` standing for divergence.
-/

/-- A table row: the text contents of its `td` cells, in order. -/
def Row := List String

/-- A table: its rows in document order. -/
def Table := List Row

instance : DecidableEq Row := by unfold Row; infer_instance

instance : DecidableEq Table := by unfold Table; infer_instance

/-- `chPfx p l` is true iff `p` is a prefix of `l`. -/
def chPfx : List Char → List Char → Bool
  | [], _ => true
  | _ :: _, [] => false
  | p :: ps, c :: cs => p == c && chPfx ps cs

/-- `hasSub sub l` is true iff `sub` occurs contiguously inside `l`. -/
def hasSub (sub : List Char) : List Char → Bool
  | [] => chPfx sub []
  | c :: cs => chPfx sub (c :: cs) || hasSub sub cs

/-- JavaScript `s.includes(sub)`: contiguous substring test. -/
def jsIncludes (s sub : String) : Bool :=
  hasSub sub.toList s.toList

/-- Strip an exact prefix, returning the remainder on success. -/
def dropPfx : List Char → List Char → Option (List Char)
  | [], l => some l
  | _ :: _, [] => none
  | p :: ps, c :: cs => if c = p then dropPfx ps cs else none


/-- Whitespace trim on both ends (JS `String.prototype.trim`). -/
def trimChars (l : List Char) : List Char :=
  ((l.dropWhile Char.isWhitespace).reverse.dropWhile Char.isWhitespace).reverse

/-- Trim a string. -/
def jsTrim (s : String) : String :=
  String.mk (trimChars s.toList)

/-- Lowercase a string (ASCII, as the data at hand is). -/
def jsToLower (s : String) : String :=
  String.mk (s.toList.map Char.toLower)

/-- Split on a single-character separator (JS `s.split(sep)`). -/
def splitOnChar (sep : Char) : List Char → List (List Char)
  | [] => [[]]
  | c :: cs =>
    if c = sep then [] :: splitOnChar sep cs
    else
      match splitOnChar sep cs with
      | h :: t => (c :: h) :: t
      | [] => [[c]]

/-- Split a string on a separator character. -/
def jsSplit (sep : Char) (s : String) : List String :=
  (splitOnChar sep s.toList).map String.mk

/-- Text content of a row (concatenation of its cells' text). -/
def rowText (r : Row) : String :=
  String.mk (r.foldr (fun s acc => s.toList ++ acc) [])

/-- The regex test `/^unformatted\s*text\.?$/i` used to blank out the
placeholder definition text. -/
def isUnformattedText (s : String) : Bool :=
  match dropPfx "unformatted".toList (jsToLower s).toList with
  | none => false
  | some rest =>
    let rest2 := rest.dropWhile (fun c => c.isWhitespace)
    match dropPfx "text".toList rest2 with
    | none => false
    | some r3 => r3 == [] || r3 == ['.']

/-- A table is a definition table when some row's text contains both
`name` and `definition` case-insensitively. -/
def isDefTable (t : Table) : Bool :=
  t.any (fun r =>
    let txt := jsToLower (rowText r)
    jsIncludes txt "name" && jsIncludes txt "definition")

/-- The definition dictionary.  Writes prepend, lookups take the first
match, so later writes to the same name win, as for a JS object. -/
def Dict := List (String × String)

instance : DecidableEq Dict := by unfold Dict; infer_instance

/-- One row of a definition table: cell 0 is the name, cell 1 the
definition; the placeholder `Unformatted text` is blanked; empty names
and the literal header `name` are skipped. -/
def processDefRow (defs : Dict) (r : Row) : Dict :=
  match r with
  | c0 :: c1 :: _ =>
    let name := jsTrim c0
    let defText := jsTrim c1
    let defText := if isUnformattedText defText then "" else defText
    if name ≠ "" ∧ jsToLower name ≠ "name" then (name, defText) :: defs else defs
  | _ => defs

/-- Scan every definition table of the document, building the
dictionary (later rows overwrite earlier ones). -/
def extractDefinitions (tables : List Table) : Dict :=
  tables.foldl
    (fun defs t => if isDefTable t then t.foldl processDefRow defs else defs) []

/-- Number of rows of a table whose text contains the hierarchy marker
`|--`. -/
def treeScore (t : Table) : Nat :=
  (t.filter (fun r => jsIncludes (rowText r) "|--")).length

/-- Among tables with more than five rows, the first one attaining the
maximal positive `treeScore`. -/
def selectByScore (tables : List Table) : Option Table :=
  (tables.foldl
    (fun (acc : Option Table × Nat) t =>
      if t.length > 5 then
        let s := treeScore t
        if s > acc.2 then (some t, s) else acc
      else acc)
    (none, 0)).1

/-- One comparison step of the fallback selection. -/
def largestStep (acc : Option Table) (t : Table) : Option Table :=
  match acc with
  | none => some t
  | some b => if t.length > b.length then some t else acc

/-- Fallback selection: the first table with the most rows (the JS
stable descending sort followed by taking element 0). -/
def largestTable (tables : List Table) : Option Table :=
  tables.foldl largestStep none

/-- Main-table choice: score-based selection, else the largest table. -/
def selectMainTable (tables : List Table) : Option Table :=
  match selectByScore tables with
  | some t => some t
  | none => largestTable tables

/-- One parsed catalog node. -/
structure Node where
  id : Nat
  parentId : Nat
  fieldNo : String
  level : Nat
  name : String
  description : String
deriving DecidableEq, Repr

/-- Keep only the ASCII digits of a string (`replace(/[^\d]/g, '')`). -/
def digitsOf (s : String) : String :=
  String.mk (s.toList.filter Char.isDigit)

/-- `parseInt` after stripping non-digits: `none` exactly when no digit
remains. -/
def parseIdOf (s : String) : Option Nat :=
  match (digitsOf s).toList with
  | [] => none
  | ds => some (ds.foldl (fun n c => 10 * n + (c.toNat - 48)) 0)

/-- Replace non-breaking spaces by ordinary spaces. -/
def replNbsp (s : String) : String :=
  String.mk (s.toList.map (fun c => if c = '\u00A0' then ' ' else c))

/-- Count of pipe characters in a label. -/
def pipeCount (s : String) : Nat :=
  (s.toList.filter (fun c => c = '|')).length

/-- Clean a label: delete every `|` and `-`, then trim. -/
def cleanLabel (s : String) : String :=
  jsTrim (String.mk (s.toList.filter (fun c => c ≠ '|' ∧ c ≠ '-')))

/-- Truthy dictionary access: a stored empty string behaves exactly
like an absent key, as `if (definitions[k])` does in JS. -/
def dictHit (defs : Dict) (k : String) : Option String :=
  match defs.lookup k with
  | some v => if v = "" then none else some v
  | none => none

/-- Description resolution: full name, then first dot-component, then
second dot-component; a falsy (empty) stored value never hits. -/
def descriptionFor (defs : Dict) (cleanName : String) : String :=
  match dictHit defs cleanName with
  | some d => d
  | none =>
    match jsSplit '.' cleanName with
    | [] => ""
    | p0 :: ps =>
      match dictHit defs p0 with
      | some d => d
      | none =>
        match ps with
        | p1 :: _ =>
          match dictHit defs p1 with
          | some d => d
          | none => ""
        | [] => ""

/-- The per-level parent tracker `parentIds` with its `-1 ↦ 0` seed
outside, and the JS default-to-zero read. -/
def jsLookupLevel (pids : List (Int × Nat)) (k : Int) : Nat :=
  match pids.lookup k with
  | some v => v
  | none => 0

/-- One catalog row of the main table.  State is the pair of the
per-level parent map and the reversed list of nodes emitted so far.
Rows with fewer than three cells or without a digit in cell 0 are
skipped.  The label comes from cell 2 (non-breaking spaces
normalised); the level is its pipe count; the cleaned name falls back
to cell 3 when cell 2 cleans to nothing; the parent is the last id
recorded one level up. -/
def processRow (defs : Dict) (st : List (Int × Nat) × List Node) (r : Row) :
    List (Int × Nat) × List Node :=
  match r with
  | c0 :: _c1 :: c2 :: rest =>
    let fieldNoStr := jsTrim c0
    match parseIdOf fieldNoStr with
    | none => st
    | some id =>
      let rawName := replNbsp c2
      let level := pipeCount rawName
      let clean0 := cleanLabel rawName
      let cleanName :=
        match rest with
        | c3 :: _ => if clean0 = "" then cleanLabel c3 else clean0
        | [] => clean0
      let parentId := jsLookupLevel st.1 ((level : Int) - 1)
      let description := descriptionFor defs cleanName
      (((level : Int), id) :: st.1,
        ⟨id, parentId, fieldNoStr, level, cleanName, description⟩ :: st.2)
  | _ => st

/-- The tree builder: fold the rows of the main table, then restore
document order. -/
def buildNodes (defs : Dict) (rows : List Row) : List Node :=
  ((rows.foldl (processRow defs) ([((-1 : Int), 0)], [])).2).reverse

/-- The parse entry point over the list of tables of the document:
fails exactly when no main table can be selected. -/
def parseRosettaNetHtml (tables : List Table) : Except String (List Node) :=
  match selectMainTable tables with
  | none => Except.error "no recognisable table structure in the file"
  | some t => Except.ok (buildNodes (extractDefinitions tables) t)

/-- The UI state owned by the session: the expanded-id set and the
highlighted-id set. -/
structure ViewState where
  expandedIds : Finset Nat
  highlightedIds : Finset Nat

instance : DecidableEq ViewState := fun a b =>
  decidable_of_iff
    (a.expandedIds = b.expandedIds ∧ a.highlightedIds = b.highlightedIds)
    (by cases a; cases b; simp)

instance : DecidableEq (Option ViewState) := fun a b =>
  match a, b with
  | none, none => isTrue rfl
  | none, some _ => isFalse (by simp)
  | some _, none => isFalse (by simp)
  | some x, some y => decidable_of_iff (x = y) (by simp)

/-- `expandAll()`: the ids of every node that has at least one child. -/
def expandAllSet (data : List Node) : Finset Nat :=
  ((data.filter (fun item => data.any (fun c => c.parentId == item.id))).map
    Node.id).toFinset

/-- The id-to-node index `new Map(data.map(d => [d.id, d]))`: the last
node with a given id wins. -/
def idMapGet (data : List Node) (k : Nat) : Option Node :=
  data.reverse.find? (fun d => d.id == k)

/-- The visibility ancestor walk, with fuel; `none` models the
non-terminating JS `while` loop. -/
def visibleWalk (data : List Node) (expanded : Finset Nat) (fuel pid : Nat) :
    Option Bool :=
  if pid = 0 then some true
  else
    match fuel with
    | 0 => none
    | f + 1 =>
      if pid ∈ expanded then
        match idMapGet data pid with
        | some parent => visibleWalk data expanded f parent.parentId
        | none => some false
      else some false

/-- The walk at `pid` never terminates, whatever the fuel. -/
def walkDiverges (data : List Node) (expanded : Finset Nat) (pid : Nat) : Prop :=
  ∀ fuel, visibleWalk data expanded fuel pid = none

/-- `data.filter(...)` over the visibility walk; `none` when any
element's walk diverges. -/
def filterVisible (data : List Node) (expanded : Finset Nat) (fuel : Nat) :
    List Node → Option (List Node)
  | [] => some []
  | item :: rest =>
    match visibleWalk data expanded fuel item.parentId,
        filterVisible data expanded fuel rest with
    | some b, some l => some (if b then item :: l else l)
    | _, _ => none

/-- The visibility projector, at fuel sufficient for every terminating
walk over `data`. -/
def visibleItems (data : List Node) (expanded : Finset Nat) :
    Option (List Node) :=
  filterVisible data expanded (data.length + 1) data

/-- Children of the node with id `pid` (or the root-level nodes for the
`0` sentinel), in document order. -/
def childrenOf (data : List Node) (pid : Nat) : List Node :=
  data.filter (fun d => d.parentId == pid)

/-- The path-segment match rule: case-insensitive equality, or
case-sensitive substring containment. -/
def segMatch (nm : String) (c : Node) : Bool :=
  jsToLower c.name == jsToLower nm || jsIncludes c.name nm

/-- First child of `cur` matching a name under the segment rule. -/
def findSingleName (data : List Node) (cur : Nat) (nm : String) : Option Node :=
  (childrenOf data cur).find? (segMatch nm)

/-- The compound-name attempt: only when a next segment exists, search
for `seg ++ "." ++ next` among the children. -/
def findCompound (data : List Node) (cur : Nat) (seg : String) :
    List String → Option Node
  | next :: _ => findSingleName data cur (seg ++ "." ++ next)
  | [] => none

/-- First child literally named `Choice` or `(Choice)`. -/
def findChoice (data : List Node) (cur : Nat) : Option Node :=
  (childrenOf data cur).find? (fun c => c.name == "Choice" || c.name == "(Choice)")

/-- The segment-wise descent of path mode.  Returns the accumulated
expansion set and the id of the last successfully resolved node. -/
def pathWalk (data : List Node) :
    List String → Finset Nat → Nat → Option Nat → Finset Nat × Option Nat
  | [], exp, _cur, m => (exp, m)
  | seg :: next :: rest2, exp, cur, m =>
    match findSingleName data cur (seg ++ "." ++ next) with
    | some mt => pathWalk data rest2 (insert mt.id exp) mt.id (some mt.id)
    | none =>
      match findSingleName data cur seg with
      | some mt =>
        pathWalk data (next :: rest2) (insert mt.id exp) mt.id (some mt.id)
      | none =>
        match findChoice data cur with
        | some ch =>
          match findSingleName data ch.id seg with
          | some mc =>
            pathWalk data (next :: rest2) (insert mc.id (insert ch.id exp))
              mc.id (some mc.id)
          | none => (exp, m)
        | none => (exp, m)
  | [seg], exp, cur, m =>
    match findSingleName data cur seg with
    | some mt => pathWalk data [] (insert mt.id exp) mt.id (some mt.id)
    | none =>
      match findChoice data cur with
      | some ch =>
        match findSingleName data ch.id seg with
        | some mc =>
          pathWalk data [] (insert mc.id (insert ch.id exp)) mc.id (some mc.id)
        | none => (exp, m)
      | none => (exp, m)

/-- Try the regex alternative `Pip[^\/]+\/` at the head of the list. -/
def stripPipAt (l : List Char) : Option (List Char) :=
  match dropPfx "Pip".toList l with
  | none => none
  | some rest =>
    let mid := rest.takeWhile (fun c => c ≠ '/')
    match mid, rest.dropWhile (fun c => c ≠ '/') with
    | _ :: _, '/' :: tail => some tail
    | _, _ => none

/-- `path.replace(/^\/?Pip[^\/]+\//, '')`: drop a leading
`/PipXXXX/`-style token, if present. -/
def stripPipHead (s : String) : String :=
  match s.toList with
  | '/' :: rest =>
    match stripPipAt rest with
    | some t => String.mk t
    | none => s
  | l =>
    match stripPipAt l with
    | some t => String.mk t
    | none => s

/-- `path.replace(/\[\d*\]/g, "")`: delete every bracketed digit
group, scanning left to right. -/
def stripBracketsAux : Nat → List Char → List Char
  | 0, l => l
  | _ + 1, [] => []
  | fuel + 1, '[' :: rest =>
    match rest.dropWhile Char.isDigit with
    | ']' :: tail => stripBracketsAux fuel tail
    | _ => '[' :: stripBracketsAux fuel rest
  | fuel + 1, c :: rest => c :: stripBracketsAux fuel rest

/-- Entry point of the bracket stripper.  Every step of the scan
consumes at least one character, so `l.length` steps always finish the
list; the fuel only makes the recursion structural. -/
def stripBrackets (l : List Char) : List Char :=
  stripBracketsAux l.length l

/-- Trim one leading and one trailing slash. -/
def dropSlashes (s : String) : String :=
  let l := s.toList
  let l1 := match l with | '/' :: t => t | _ => l
  let l2 := match l1.reverse with | '/' :: t => t.reverse | _ => l1
  String.mk l2

/-- The normalised segment list of a path query. -/
def pathSegments (t : String) : List String :=
  (jsSplit '/' (dropSlashes (String.mk (stripBrackets
    (stripPipHead t).toList)))).filter (fun s => s != "")

/-- Path-mode final effect, including the truthiness gate
`if (matchedNodeId)`: a resolution ending on id `0`, or no resolution
at all, empties the highlighted set and leaves the expanded set
alone. -/
def pathSearch (data : List Node) (t : String) (st : ViewState) : ViewState :=
  match (pathWalk data (pathSegments t) ∅ 0 none).2 with
  | some k =>
    if k ≠ 0 then ViewState.mk (pathWalk data (pathSegments t) ∅ 0 none).1 {k}
    else ViewState.mk st.expandedIds ∅
  | none => ViewState.mk st.expandedIds ∅

/-- Keyword-mode match predicate over the lowercased search term. -/
def keywordMatch (lowerTerm : String) (item : Node) : Bool :=
  jsIncludes (jsToLower item.name) lowerTerm || jsIncludes item.fieldNo lowerTerm

/-- Ids highlighted by keyword mode for the (trimmed) term. -/
def keywordHighlights (data : List Node) (t : String) : Finset Nat :=
  ((data.filter (keywordMatch (jsToLower t))).map Node.id).toFinset

/-- The keyword-mode ancestor expansion walk, with fuel; it uses
`data.find` (first node with the id), unlike the visibility walk. -/
def ancestorWalk (data : List Node) (fuel pid : Nat) (acc : Finset Nat) :
    Option (Finset Nat) :=
  if pid = 0 then some acc
  else
    match fuel with
    | 0 => none
    | f + 1 =>
      let acc2 := insert pid acc
      match data.find? (fun d => d.id == pid) with
      | some parent => ancestorWalk data f parent.parentId acc2
      | none => some acc2

/-- Extend the expanded set with every ancestor of every match. -/
def keywordExpand (data : List Node) (ms : List Node)
    (exp0 : Finset Nat) : Option (Finset Nat) :=
  ms.foldl
    (fun acc m =>
      match acc with
      | none => none
      | some s => ancestorWalk data (data.length + 1) m.parentId s)
    (some exp0)

/-- Keyword-mode effect: highlighted set replaced by the matches,
expanded set extended by their ancestor chains. -/
def keywordSearch (data : List Node) (t : String) (st : ViewState) :
    Option ViewState :=
  match keywordExpand data (data.filter (keywordMatch (jsToLower t)))
      st.expandedIds with
  | some exp2 =>
    some (ViewState.mk exp2
      (((data.filter (keywordMatch (jsToLower t))).map Node.id).toFinset))
  | none => none

/-- The search effect: nothing on an empty tree, clearing on a blank
term, then path mode when the term contains `/` or starts with `Pip`,
else keyword mode. -/
def runSearch (data : List Node) (term : String) (st : ViewState) :
    Option ViewState :=
  if data.isEmpty then some st
  else if jsTrim term = "" then some (ViewState.mk st.expandedIds ∅)
  else
    let t := jsTrim term
    if jsIncludes t "/" || chPfx "Pip".toList t.toList then
      some (pathSearch data t st)
    else keywordSearch data t st

/-- Modelled from the spec's words for the description lookup, for
comparison with the code: (a) exact match on the full name; (b) if the
name contains a separator, match on the substring before the first
separator; (c) match on the substring after the first separator; first
hit wins, no hit gives the empty string. -/
def specDescription (d : Dict) (n : String) : String :=
  match d.lookup n with
  | some v => v
  | none =>
    if jsIncludes n "." then
      let before := String.mk (n.toList.takeWhile (fun c => c ≠ '.'))
      let after := String.mk ((n.toList.dropWhile (fun c => c ≠ '.')).drop 1)
      match d.lookup before with
      | some v => v
      | none =>
        match d.lookup after with
        | some v => v
        | none => ""
    else ""

/-- Modelled from the spec's words for the keyword match: the name
contains the query case-insensitively, or the field number contains
the query literally, as typed. -/
def specKeywordMatch (q : String) (item : Node) : Bool :=
  jsIncludes (jsToLower item.name) (jsToLower q) || jsIncludes item.fieldNo q

/-- The round-trip document of the spec: one catalog table whose three
rows carry field numbers 1, 2, 3 and labels `Pip3A4.Root`,
`|--ServiceHeader`, `|--|--ProcessControl`. -/
def rtTables : List Table :=
  [[["1", "c", "Pip3A4.Root"],
    ["2", "c", "|--ServiceHeader"],
    ["3", "c", "|--|--ProcessControl"]]]

/-- The nodes the round-trip document parses to. -/
def rtNodes : List Node :=
  [⟨1, 0, "1", 0, "Pip3A4.Root", ""⟩,
   ⟨2, 1, "2", 1, "ServiceHeader", ""⟩,
   ⟨3, 2, "3", 2, "ProcessControl", ""⟩]

/-- A document whose two catalog rows carry the same field number,
making the second node its own parent by id. -/
def dupTables : List Table := [[["1", "c", "Dup"], ["1", "c", "|--Child"]]]

/-- The nodes the duplicate-id document parses to. -/
def dupNodes : List Node :=
  [⟨1, 0, "1", 0, "Dup", ""⟩, ⟨1, 1, "1", 1, "Child", ""⟩]

/-- A document with one catalog row whose label cell `|--` cleans to
nothing and whose fourth cell holds the name `Beta`. -/
def shiftTables : List Table := [[["4", "c", "|--", "Beta"]]]

/-- A document with a definition table holding `b.c ↦ X` and a catalog
containing a node named `a.b.c`. -/
def dotTables : List Table :=
  [[["Name", "Definition"], ["b.c", "X"]],
   [["1", "c", "Root"], ["2", "c", "|--a.b.c"], ["3", "c", "|--Foo"],
    ["4", "c", "|--Bar"], ["5", "c", "|--Baz"], ["6", "c", "|--Qux"]]]

/-- The nodes the dotted-name document parses to. -/
def dotNodes : List Node :=
  [⟨1, 0, "1", 0, "Root", ""⟩,
   ⟨2, 1, "2", 1, "a.b.c", ""⟩,
   ⟨3, 1, "3", 1, "Foo", ""⟩,
   ⟨4, 1, "4", 1, "Bar", ""⟩,
   ⟨5, 1, "5", 1, "Baz", ""⟩,
   ⟨6, 1, "6", 1, "Qux", ""⟩]

/-- A document with one catalog row whose field number token `0.`
strips to the digits `0`. -/
def zeroTables : List Table := [[["0.", "c", "Alpha"]]]

/-- The single node, with id `0`, of the zero-id document. -/
def zeroNodes : List Node := [⟨0, 0, "0.", 0, "Alpha", ""⟩]

/-- A tree where `ProcessControl` sits under a `Choice` wrapper below
`ServiceHeader`. -/
def choiceTables : List Table :=
  [[["1", "c", "ServiceHeader"],
    ["2", "c", "|--Choice"],
    ["3", "c", "|--|--ProcessControl"]]]

/-- The nodes of the `Choice`-wrapped tree. -/
def choiceNodes : List Node :=
  [⟨1, 0, "1", 0, "ServiceHeader", ""⟩,
   ⟨2, 1, "2", 1, "Choice", ""⟩,
   ⟨3, 2, "3", 2, "ProcessControl", ""⟩]

/-- A node whose field number contains an uppercase letter. -/
def upperFieldNode : Node := ⟨7, 0, "1A", 0, "x", ""⟩

/-- The backward-linking invariant, stated on the reversed emission
list kept by the builder fold: each node's parent id is the root
sentinel or the id of a node emitted before it. -/
inductive ParentLinked : List Node → Prop
  | nil : ParentLinked []
  | cons (n : Node) (rest : List Node) :
      (n.parentId = 0 ∨ n.parentId ∈ rest.map Node.id) → ParentLinked rest →
      ParentLinked (n :: rest)

/-- Every value stored in the per-level tracker is the root sentinel
or the id of an emitted node. -/
def PidsOk (pids : List (Int × Nat)) (acc : List Node) : Prop :=
  ∀ v ∈ pids.map Prod.snd, v = 0 ∨ v ∈ acc.map Node.id

/-- A successful association-list lookup returns one of the stored
values. -/
theorem lookup_val_mem :
    ∀ (pids : List (Int × Nat)) (k : Int) (v : Nat),
      pids.lookup k = some v → v ∈ pids.map Prod.snd := by
  intro pids
  induction pids with
  | nil => intro k v h; simp [List.lookup] at h
  | cons a t ih =>
    intro k v h
    obtain ⟨k1, v1⟩ := a
    rw [List.lookup] at h
    cases hk : k == k1 with
    | true =>
      rw [hk] at h
      simp at h
      simp [h]
    | false =>
      rw [hk] at h
      simp at h
      simp [ih k v h]

/-- A tracker read is the sentinel or one of the stored values. -/
theorem jsLookupLevel_zero_or_mem (pids : List (Int × Nat)) (k : Int) :
    jsLookupLevel pids k = 0 ∨ jsLookupLevel pids k ∈ pids.map Prod.snd := by
  unfold jsLookupLevel
  cases h : pids.lookup k with
  | none => left; rfl
  | some v => right; exact lookup_val_mem pids k v h

/-- One builder step preserves the tracker and backward-link
invariants. -/
theorem processRow_inv (defs : Dict) (r : Row) (pids : List (Int × Nat))
    (acc : List Node) (h1 : PidsOk pids acc) (h2 : ParentLinked acc) :
    PidsOk (processRow defs (pids, acc) r).1 (processRow defs (pids, acc) r).2 ∧
      ParentLinked (processRow defs (pids, acc) r).2 := by
  match r with
  | [] => exact ⟨h1, h2⟩
  | [c0] => exact ⟨h1, h2⟩
  | [c0, c1] => exact ⟨h1, h2⟩
  | c0 :: c1 :: c2 :: rest =>
    show PidsOk (match parseIdOf (jsTrim c0) with
        | none => (pids, acc)
        | some id => _).1 _ ∧ _
    cases hid : parseIdOf (jsTrim c0) with
    | none =>
      simp only [processRow, hid]
      exact ⟨h1, h2⟩
    | some id =>
      simp only [processRow, hid]
      constructor
      · intro v hv
        simp only [List.map_cons, List.mem_cons] at hv
        rcases hv with rfl | hv
        · right; simp
        · rcases h1 v hv with h0 | hmem
          · left; exact h0
          · right; simp [hmem]
      · refine ParentLinked.cons _ _ ?_ h2
        rcases jsLookupLevel_zero_or_mem pids
            ((pipeCount (replNbsp c2) : Int) - 1) with h0 | hmem
        · left; exact h0
        · rcases h1 _ hmem with h0 | hin
          · left; exact h0
          · right; exact hin

/-- The whole builder fold preserves both invariants. -/
theorem buildFold_inv (defs : Dict) :
    ∀ (rows : List Row) (pids : List (Int × Nat)) (acc : List Node),
      PidsOk pids acc → ParentLinked acc →
      PidsOk (rows.foldl (processRow defs) (pids, acc)).1
          (rows.foldl (processRow defs) (pids, acc)).2 ∧
        ParentLinked (rows.foldl (processRow defs) (pids, acc)).2 := by
  intro rows
  induction rows with
  | nil => intro pids acc h1 h2; exact ⟨h1, h2⟩
  | cons r rs ih =>
    intro pids acc h1 h2
    rw [List.foldl_cons]
    have h := processRow_inv defs r pids acc h1 h2
    have h3 := ih (processRow defs (pids, acc) r).1 (processRow defs (pids, acc) r).2
      h.1 h.2
    simpa using h3

/-- The reversed emission list of the builder satisfies the
backward-link invariant. -/
theorem buildNodes_parentLinked (defs : Dict) (rows : List Row) :
    ParentLinked ((rows.foldl (processRow defs) ([((-1 : Int), 0)], [])).2) := by
  refine (buildFold_inv defs rows [((-1 : Int), 0)] [] ?_ ParentLinked.nil).2
  intro v hv
  left
  simpa using hv

/-- Splitting a backward-linked list around an element shows its
parent among the later (earlier-emitted) part. -/
theorem parentLinked_split :
    ∀ (l1 : List Node) (x : Node) (l2 : List Node),
      ParentLinked (l1 ++ x :: l2) →
      x.parentId = 0 ∨ x.parentId ∈ l2.map Node.id := by
  intro l1
  induction l1 with
  | nil =>
    intro x l2 h
    cases h with
    | cons n rest hx hr => exact hx
  | cons y t ih =>
    intro x l2 h
    cases h with
    | cons n rest hx hr => exact ih x l2 hr

/-- Any node in the builder output has a parent id of `0` or the id of
a node that appears strictly earlier in the output. -/
theorem buildNodes_parent_earlier (defs : Dict) (rows : List Row)
    (pre post : List Node) (x : Node)
    (h : buildNodes defs rows = pre ++ x :: post) :
    x.parentId = 0 ∨ x.parentId ∈ pre.map Node.id := by
  unfold buildNodes at h
  have h2 : (rows.foldl (processRow defs) ([((-1 : Int), 0)], [])).2
      = post.reverse ++ x :: pre.reverse := by
    have h3 := congrArg List.reverse h
    rw [List.reverse_reverse] at h3
    rw [h3]
    simp
  have h4 := parentLinked_split post.reverse x pre.reverse
    (h2 ▸ buildNodes_parentLinked defs rows)
  rcases h4 with h0 | hm
  · left; exact h0
  · right
    rw [List.map_reverse, List.mem_reverse] at hm
    exact hm

/-- The walk at the root sentinel succeeds whatever the fuel. -/
theorem visibleWalk_zero_pid (data : List Node) (exp : Finset Nat) (fuel : Nat) :
    visibleWalk data exp fuel 0 = some true := by
  unfold visibleWalk
  simp

/-- The walk with no fuel at a non-sentinel id diverges. -/
theorem visibleWalk_fuel_zero (data : List Node) (exp : Finset Nat) (pid : Nat)
    (hp : pid ≠ 0) : visibleWalk data exp 0 pid = none := by
  unfold visibleWalk
  rw [if_neg hp]

/-- One unfolding step of the walk at a non-sentinel id. -/
theorem visibleWalk_succ (data : List Node) (exp : Finset Nat) (f pid : Nat)
    (hp : pid ≠ 0) :
    visibleWalk data exp (f + 1) pid =
      if pid ∈ exp then
        match idMapGet data pid with
        | some parent => visibleWalk data exp f parent.parentId
        | none => some false
      else some false := by
  conv_lhs => unfold visibleWalk
  rw [if_neg hp]

/-- A terminated walk stays terminated with more fuel. -/
theorem visibleWalk_mono (data : List Node) (exp : Finset Nat) :
    ∀ f1 f2 pid b, f1 ≤ f2 → visibleWalk data exp f1 pid = some b →
      visibleWalk data exp f2 pid = some b := by
  intro f1
  induction f1 with
  | zero =>
    intro f2 pid b _ h
    by_cases hp : pid = 0
    · subst hp
      rw [visibleWalk_zero_pid] at h
      rw [visibleWalk_zero_pid]
      exact h
    · rw [visibleWalk_fuel_zero data exp pid hp] at h
      exact absurd h (by simp)
  | succ f ih =>
    intro f2 pid b hle h
    by_cases hp : pid = 0
    · subst hp
      rw [visibleWalk_zero_pid] at h
      rw [visibleWalk_zero_pid]
      exact h
    · obtain ⟨f3, rfl⟩ : ∃ k, f2 = k + 1 := ⟨f2 - 1, by omega⟩
      rw [visibleWalk_succ data exp f pid hp] at h
      rw [visibleWalk_succ data exp f3 pid hp]
      by_cases hm : pid ∈ exp
      · rw [if_pos hm] at h ⊢
        cases hg : idMapGet data pid with
        | none =>
          rw [hg] at h
          exact h
        | some parent =>
          rw [hg] at h
          exact ih f3 parent.parentId b (by omega) h
      · rw [if_neg hm] at h ⊢
        exact h

/-- With pairwise-distinct ids, `find?` locates the unique member
carrying a given id. -/
theorem find_eq_of_unique :
    ∀ (l : List Node) (p : Nat) (x : Node),
      (l.map Node.id).Nodup → x ∈ l → x.id = p →
      l.find? (fun d => d.id == p) = some x := by
  intro l
  induction l with
  | nil => intro p x _ hx _; simp at hx
  | cons y t ih =>
    intro p x hnd hx hxp
    rw [List.map_cons, List.nodup_cons] at hnd
    cases hy : (y.id == p) with
    | true =>
      have hyx : x = y := by
        rcases List.mem_cons.1 hx with rfl | hxt
        · rfl
        · exfalso
          apply hnd.1
          have : y.id = x.id := by
            rw [hxp]
            exact beq_iff_eq.1 hy
          rw [this]
          exact List.mem_map_of_mem Node.id hxt
      subst hyx
      simp [List.find?, hy]
    | false =>
      have hxt : x ∈ t := by
        rcases List.mem_cons.1 hx with rfl | hxt
        · exfalso
          rw [hxp] at hy
          simp at hy
        · exact hxt
      rw [List.find?]
      rw [hy]
      exact ih p x hnd.2 hxt hxp

/-- With pairwise-distinct ids, the id index returns the unique node
with a given id. -/
theorem idMapGet_eq (data : List Node) (x : Node) (p : Nat)
    (hnd : (data.map Node.id).Nodup) (hx : x ∈ data) (hxp : x.id = p) :
    idMapGet data p = some x := by
  unfold idMapGet
  refine find_eq_of_unique data.reverse p x ?_ (List.mem_reverse.2 hx) hxp
  rw [List.map_reverse]
  exact List.nodup_reverse.2 hnd

/-- A node with a child is in the `expandAll` set. -/
theorem mem_expandAllSet (data : List Node) (y child : Node)
    (hy : y ∈ data) (hc : child ∈ data) (hpc : child.parentId = y.id) :
    y.id ∈ expandAllSet data := by
  unfold expandAllSet
  rw [List.mem_toFinset]
  refine List.mem_map_of_mem Node.id (List.mem_filter.2 ⟨hy, ?_⟩)
  exact List.any_eq_true.2 ⟨child, hc, by simp [hpc]⟩

/-- Split a list at an index. -/
theorem take_get_split :
    ∀ (l : List Node) (i : Nat) (hi : i < l.length),
      l = l.take i ++ l.get ⟨i, hi⟩ :: l.drop (i + 1) := by
  intro l
  induction l with
  | nil => intro i hi; simp at hi
  | cons y t ih =>
    intro i hi
    cases i with
    | zero => simp
    | succ k =>
      have hk : k < t.length := by simpa using hi
      have := ih k hk
      simp only [List.take_succ_cons, List.get_cons_succ, List.drop_succ_cons,
        List.cons_append]
      exact congrArg (List.cons y) this

/-- Members of a prefix sit at indices below the cut. -/
theorem mem_take_get :
    ∀ (l : List Node) (i : Nat) (y : Node), y ∈ l.take i →
      ∃ j, ∃ hj : j < l.length, j < i ∧ l.get ⟨j, hj⟩ = y := by
  intro l
  induction l with
  | nil => intro i y hy; simp at hy
  | cons z t ih =>
    intro i y hy
    cases i with
    | zero => simp at hy
    | succ k =>
      rw [List.take_succ_cons] at hy
      rcases List.mem_cons.1 hy with rfl | hyt
      · exact ⟨0, by simp, Nat.succ_pos k, rfl⟩
      · rcases ih k y hyt with ⟨j, hj, hji, hjy⟩
        refine ⟨j + 1, by simpa using Nat.succ_lt_succ hj, Nat.succ_lt_succ hji, ?_⟩
        simpa using hjy

/-- On a builder output with pairwise-distinct ids, the visibility
walk from any node's parent under the `expandAll` set terminates with
success, using fuel one past the node's position. -/
theorem walk_true_of_nodup (defs : Dict) (rows : List Row)
    (hnd : ((buildNodes defs rows).map Node.id).Nodup) :
    ∀ i, ∀ hi : i < (buildNodes defs rows).length,
      visibleWalk (buildNodes defs rows) (expandAllSet (buildNodes defs rows))
        (i + 1) (((buildNodes defs rows).get ⟨i, hi⟩).parentId) = some true := by
  intro i
  induction i using Nat.strong_induction_on with
  | _ i IH =>
    intro hi
    by_cases hp : ((buildNodes defs rows).get ⟨i, hi⟩).parentId = 0
    · rw [hp]
      exact visibleWalk_zero_pid _ _ _
    · have hsplit := take_get_split (buildNodes defs rows) i hi
      have hep := buildNodes_parent_earlier defs rows
        ((buildNodes defs rows).take i) ((buildNodes defs rows).drop (i + 1))
        ((buildNodes defs rows).get ⟨i, hi⟩) hsplit
      rcases hep with h0 | hm
      · exact absurd h0 hp
      · rcases List.mem_map.1 hm with ⟨y, hyt, hyid⟩
        rcases mem_take_get (buildNodes defs rows) i y hyt with ⟨j, hj, hji, hjy⟩
        have hyd : y ∈ buildNodes defs rows := by
          rw [← hjy]
          exact (buildNodes defs rows).get_mem j hj
        have hxd : (buildNodes defs rows).get ⟨i, hi⟩ ∈ buildNodes defs rows :=
          (buildNodes defs rows).get_mem i hi
        have hmem : ((buildNodes defs rows).get ⟨i, hi⟩).parentId
            ∈ expandAllSet (buildNodes defs rows) := by
          rw [← hyid]
          exact mem_expandAllSet _ y _ hyd hxd hyid.symm
        have hget : idMapGet (buildNodes defs rows)
            (((buildNodes defs rows).get ⟨i, hi⟩).parentId) = some y :=
          idMapGet_eq _ y _ hnd hyd hyid
        rw [visibleWalk_succ _ _ i _ hp, if_pos hmem, hget]
        have hwalk := IH j hji hj
        rw [hjy] at hwalk
        exact visibleWalk_mono _ _ (j + 1) i y.parentId true (by omega) hwalk

/-- The projection keeps every element whose walk succeeds. -/
theorem filterVisible_all (data : List Node) (exp : Finset Nat) (fuel : Nat) :
    ∀ l : List Node, (∀ x ∈ l, visibleWalk data exp fuel x.parentId = some true) →
      filterVisible data exp fuel l = some l := by
  intro l
  induction l with
  | nil => intro _; rfl
  | cons x t ih =>
    intro h
    unfold filterVisible
    rw [h x (List.mem_cons_self x t), ih (fun y hy => h y (List.mem_cons_of_mem x hy))]
    rfl

/-- Under the empty expanded set the projection keeps exactly the
root-level nodes. -/
theorem filterVisible_empty (data : List Node) (fuel : Nat) :
    ∀ l : List Node, filterVisible data ∅ (fuel + 1) l
      = some (l.filter (fun n => n.parentId == 0)) := by
  intro l
  induction l with
  | nil => rfl
  | cons x t ih =>
    unfold filterVisible
    rw [ih]
    by_cases hp : x.parentId = 0
    · rw [hp, visibleWalk_zero_pid]
      simp [List.filter_cons, hp]
    · have hw : visibleWalk data ∅ (fuel + 1) x.parentId = some false := by
        rw [visibleWalk_succ _ _ fuel _ hp]
        simp
      rw [hw]
      simp [List.filter_cons, hp]

/-- Claim C2: in the node sequence emitted by the tree builder, every
node's parentId is either 0 or the id of a node emitted strictly
earlier in the sequence, for every input document — no forward
references, and parent links only ever point backwards in emission
order. -/
theorem c2_parent_backward_reference (defs : Dict) (rows : List Row)
    (pre post : List Node) (x : Node)
    (h : buildNodes defs rows = pre ++ x :: post) :
    x.parentId = 0 ∨ ∃ y ∈ pre, y.id = x.parentId := by
  rcases buildNodes_parent_earlier defs rows pre post x h with h0 | hm
  · left; exact h0
  · right
    rcases List.mem_map.1 hm with ⟨y, hy, hid⟩
    exact ⟨y, hy, hid⟩

/-- Witness for C2 on the round-trip document: the second node's
parent id 1 is the id of the node emitted before it. -/
theorem c2_witness :
    buildNodes [] [["1", "c", "Pip3A4.Root"], ["2", "c", "|--ServiceHeader"],
        ["3", "c", "|--|--ProcessControl"]]
      = [(⟨1, 0, "1", 0, "Pip3A4.Root", ""⟩ : Node)]
          ++ (⟨2, 1, "2", 1, "ServiceHeader", ""⟩ : Node)
          :: [(⟨3, 2, "3", 2, "ProcessControl", ""⟩ : Node)] ∧
      ((⟨2, 1, "2", 1, "ServiceHeader", ""⟩ : Node).parentId = 0 ∨
        ∃ y ∈ [(⟨1, 0, "1", 0, "Pip3A4.Root", ""⟩ : Node)],
          y.id = (⟨2, 1, "2", 1, "ServiceHeader", ""⟩ : Node).parentId) :=
  ⟨rfl,
    c2_parent_backward_reference []
      [["1", "c", "Pip3A4.Root"], ["2", "c", "|--ServiceHeader"],
        ["3", "c", "|--|--ProcessControl"]]
      [⟨1, 0, "1", 0, "Pip3A4.Root", ""⟩]
      [⟨3, 2, "3", 2, "ProcessControl", ""⟩] ⟨2, 1, "2", 1, "ServiceHeader", ""⟩ rfl⟩

/-- Claim C3 (amended): for every node list produced by the builder
whose ids are pairwise distinct, projecting with the `expandAll` set
yields the full sequence in original order, and projecting with the
empty set yields exactly the root-level nodes in original order.  (On
duplicate ids the `expandAll` projection can diverge, see the
counterexample.) -/
theorem c3_expand_collapse_projection (defs : Dict) (rows : List Row)
    (hnd : ((buildNodes defs rows).map Node.id).Nodup) :
    visibleItems (buildNodes defs rows) (expandAllSet (buildNodes defs rows))
        = some (buildNodes defs rows) ∧
      visibleItems (buildNodes defs rows) ∅
        = some ((buildNodes defs rows).filter (fun n => n.parentId == 0)) := by
  constructor
  · unfold visibleItems
    apply filterVisible_all
    intro x hx
    rcases List.mem_iff_get.1 hx with ⟨⟨i, hi⟩, hg⟩
    have h := walk_true_of_nodup defs rows hnd i hi
    rw [hg] at h
    exact visibleWalk_mono _ _ (i + 1) ((buildNodes defs rows).length + 1)
      x.parentId true (by omega) h
  · unfold visibleItems
    exact filterVisible_empty _ _ _

/-- Counterexample to C3 as stated: the duplicate-id document parses
to a node that is its own parent by id, the visibility walk at that id
diverges for every fuel (the JS loop hangs), and the `expandAll`
projection does not yield the full node sequence. -/
theorem c3_counterexample :
    parseRosettaNetHtml dupTables = Except.ok dupNodes ∧
      walkDiverges dupNodes (expandAllSet dupNodes) 1 ∧
      visibleItems dupNodes (expandAllSet dupNodes) ≠ some dupNodes := by
  refine ⟨rfl, ?_, by decide⟩
  intro fuel
  induction fuel with
  | zero => decide
  | succ f ih => exact ih

/-- Witness for C3 on the round-trip document, whose ids 1, 2, 3 are
pairwise distinct. -/
theorem c3_witness :
    ((buildNodes [] [["1", "c", "Pip3A4.Root"], ["2", "c", "|--ServiceHeader"],
        ["3", "c", "|--|--ProcessControl"]]).map Node.id).Nodup ∧
      (visibleItems (buildNodes [] [["1", "c", "Pip3A4.Root"],
            ["2", "c", "|--ServiceHeader"], ["3", "c", "|--|--ProcessControl"]])
          (expandAllSet (buildNodes [] [["1", "c", "Pip3A4.Root"],
            ["2", "c", "|--ServiceHeader"], ["3", "c", "|--|--ProcessControl"]]))
        = some (buildNodes [] [["1", "c", "Pip3A4.Root"],
            ["2", "c", "|--ServiceHeader"], ["3", "c", "|--|--ProcessControl"]]) ∧
      visibleItems (buildNodes [] [["1", "c", "Pip3A4.Root"],
            ["2", "c", "|--ServiceHeader"], ["3", "c", "|--|--ProcessControl"]]) ∅
        = some ((buildNodes [] [["1", "c", "Pip3A4.Root"],
            ["2", "c", "|--ServiceHeader"],
            ["3", "c", "|--|--ProcessControl"]]).filter
              (fun n => n.parentId == 0))) :=
  ⟨by decide,
    c3_expand_collapse_projection []
      [["1", "c", "Pip3A4.Root"], ["2", "c", "|--ServiceHeader"],
        ["3", "c", "|--|--ProcessControl"]] (by decide)⟩

/-- Counterexample to C1 as stated: the round-trip document parses to
the claimed tree, but the path query `/Pip3A4/ServiceHeader/ProcessControl`
highlights nothing — the `/Pip3A4/` prefix is stripped, so the first
remaining segment `ServiceHeader` is compared against the root-level
node `Pip3A4.Root` and fails. -/
theorem c1_counterexample :
    parseRosettaNetHtml rtTables = Except.ok rtNodes ∧
      runSearch rtNodes "/Pip3A4/ServiceHeader/ProcessControl" (ViewState.mk ∅ ∅)
        = some (ViewState.mk ∅ ∅) ∧
      (ViewState.mk ∅ ∅).highlightedIds ≠ ({3} : Finset Nat) :=
  ⟨rfl, by decide, by decide⟩

/-- Claim C1 (amended): on the round-trip tree the query
`/Pip3A4/ServiceHeader/ProcessControl` resolves nothing (highlighted
set emptied, expanded set unchanged), because the `Pip…` prefix is
stripped before matching starts at the root sentinel; a query whose
first segment matches the root node, `Root/ServiceHeader/ProcessControl`,
highlights exactly node 3 and expands `{1, 2, 3}`, which contains the
ancestor chain `{1, 2}` of nodes 2 and 3. -/
theorem c1_path_query_resolution :
    parseRosettaNetHtml rtTables = Except.ok rtNodes ∧
      runSearch rtNodes "/Pip3A4/ServiceHeader/ProcessControl" (ViewState.mk ∅ ∅)
        = some (ViewState.mk ∅ ∅) ∧
      runSearch rtNodes "Root/ServiceHeader/ProcessControl" (ViewState.mk ∅ ∅)
        = some (ViewState.mk {1, 2, 3} {3}) ∧
      ({1, 2} : Finset Nat) ⊆ {1, 2, 3} :=
  ⟨rfl, by decide, by decide, by decide⟩

/-- The fallback fold keeps a selected table once one is present. -/
theorem foldl_largestStep_isSome :
    ∀ (ts : List Table) (b : Table), (ts.foldl largestStep (some b)).isSome := by
  intro ts
  induction ts with
  | nil => intro b; rfl
  | cons t ts ih =>
    intro b
    rw [List.foldl_cons]
    show (ts.foldl largestStep (if t.length > b.length then some t else some b)).isSome
    by_cases h : t.length > b.length
    · rw [if_pos h]; exact ih t
    · rw [if_neg h]; exact ih b

/-- A non-empty document always selects a main table. -/
theorem selectMainTable_isSome (t : Table) (ts : List Table) :
    (selectMainTable (t :: ts)).isSome := by
  unfold selectMainTable
  cases h : selectByScore (t :: ts) with
  | some u => rfl
  | none =>
    show (largestTable (t :: ts)).isSome
    unfold largestTable
    rw [List.foldl_cons]
    show (ts.foldl largestStep (some t)).isSome
    exact foldl_largestStep_isSome ts t

/-- Claim C4: the parse entry point is total on the list of tables of
the document and returns an error exactly when that list is empty; any
document with at least one table yields a (possibly empty) node
sequence. -/
theorem c4_parse_error_iff_no_table (tables : List Table) :
    ((∃ msg, parseRosettaNetHtml tables = Except.error msg) ↔ tables = []) ∧
      (tables ≠ [] → ∃ nodes, parseRosettaNetHtml tables = Except.ok nodes) := by
  have hok : ∀ t ts, ∃ nodes, parseRosettaNetHtml (t :: ts) = Except.ok nodes := by
    intro t ts
    have h := selectMainTable_isSome t ts
    cases hs : selectMainTable (t :: ts) with
    | none => rw [hs] at h; exact absurd h (by simp)
    | some u =>
      refine ⟨buildNodes (extractDefinitions (t :: ts)) u, ?_⟩
      unfold parseRosettaNetHtml
      rw [hs]
  constructor
  · constructor
    · intro hmsg
      cases tables with
      | nil => rfl
      | cons t ts =>
        rcases hok t ts with ⟨nodes, hn⟩
        rcases hmsg with ⟨msg, hm⟩
        rw [hn] at hm
        exact absurd hm (by simp)
    · rintro rfl
      exact ⟨_, rfl⟩
  · intro hne
    cases tables with
    | nil => exact absurd rfl hne
    | cons t ts => exact hok t ts

/-- Witness for C4 at the round-trip document. -/
theorem c4_witness :
    rtTables ≠ [] ∧ ∃ nodes, parseRosettaNetHtml rtTables = Except.ok nodes :=
  ⟨by decide, (c4_parse_error_iff_no_table rtTables).2 (by decide)⟩

/-- Counterexample to C5 as stated: on a row whose label cell `|--`
cleans to nothing and whose fourth cell is `Beta`, the emitted node's
name comes from cell 3 but its level stays 1 — the pipe count of the
original cell 2 — whereas cell 3's text has pipe count 0. -/
theorem c5_counterexample :
    parseRosettaNetHtml shiftTables
        = Except.ok [⟨4, 0, "4", 1, "Beta", ""⟩] ∧
      pipeCount "Beta" = 0 ∧
      (⟨4, 0, "4", 1, "Beta", ""⟩ : Node).level ≠ 0 :=
  ⟨rfl, by decide, by decide⟩

/-- Claim C5 (amended): when cell 2 cleans to an empty name and a
fourth cell exists, only the label text and cleaned name are retried
from cell 3; the level keeps the pipe count computed from cell 2's
(nbsp-normalised) text. -/
theorem c5_cell3_retry (defs : Dict) (pids : List (Int × Nat)) (acc : List Node)
    (c0 c1 c2 c3 : String) (rest : List String) (n : Nat)
    (hid : parseIdOf (jsTrim c0) = some n)
    (hempty : cleanLabel (replNbsp c2) = "") :
    ∃ node : Node,
      (processRow defs (pids, acc) (c0 :: c1 :: c2 :: c3 :: rest)).2 = node :: acc ∧
        node.name = cleanLabel c3 ∧
        node.level = pipeCount (replNbsp c2) ∧
        node.id = n := by
  refine ⟨⟨n, jsLookupLevel pids ((pipeCount (replNbsp c2) : Int) - 1), jsTrim c0,
    pipeCount (replNbsp c2), cleanLabel c3,
    descriptionFor defs (cleanLabel c3)⟩, ?_, rfl, rfl, rfl⟩
  unfold processRow
  simp only [hid, hempty]
  simp

/-- Witness for C5 at the shifted-name row. -/
theorem c5_witness :
    parseIdOf (jsTrim "4") = some 4 ∧ cleanLabel (replNbsp "|--") = "" ∧
      ∃ node : Node,
        (processRow [] ([((-1 : Int), 0)], []) ["4", "c", "|--", "Beta"]).2
            = node :: [] ∧
          node.name = cleanLabel "Beta" ∧
          node.level = pipeCount (replNbsp "|--") ∧
          node.id = 4 :=
  ⟨by decide, by decide,
    c5_cell3_retry [] [((-1 : Int), 0)] [] "4" "c" "|--" "Beta" [] 4
      (by decide) (by decide)⟩

/-- Counterexample to C6 as stated: with the dictionary `b.c ↦ X` and
a node named `a.b.c`, step (c) of the code tries the second
dot-component `b` — not the substring `b.c` after the first separator
— so the emitted description is empty while the spec's lookup rule
yields `X`. -/
theorem c6_counterexample :
    extractDefinitions dotTables = [("b.c", "X")] ∧
      parseRosettaNetHtml dotTables = Except.ok dotNodes ∧
      (⟨2, 1, "2", 1, "a.b.c", ""⟩ : Node).description = "" ∧
      specDescription [("b.c", "X")] "a.b.c" = "X" ∧
      ("" : String) ≠ "X" :=
  ⟨rfl, rfl, rfl, by decide, by decide⟩

/-- Claim C6 (amended): a node's description is the first hit among
the full name, the first dot-component, and the second dot-component
of the name (not the whole suffix after the first separator), where a
dictionary entry whose stored description is empty counts as a miss;
no hit yields the empty string. -/
theorem c6_description_priority (defs : Dict) (n : String) :
    descriptionFor defs n
      = ((n :: (jsSplit '.' n).take 2).filterMap (dictHit defs)).headD "" := by
  unfold descriptionFor
  cases h0 : dictHit defs n with
  | some d => simp [h0]
  | none =>
    cases hs : jsSplit '.' n with
    | nil => simp [h0, hs]
    | cons p0 ps =>
      cases h1 : dictHit defs p0 with
      | some d => simp [h0, hs, h1]
      | none =>
        cases ps with
        | nil => simp [h0, hs, h1]
        | cons p1 ps2 =>
          cases h2 : dictHit defs p1 with
          | some d => simp [h0, hs, h1, h2]
          | none => simp [h0, hs, h1, h2]

/-- Counterexample to C7 as stated: on the zero-id document the single
segment `Alpha` resolves (the walk returns matched id 0 and
accumulated expansion `{0}`), yet the final effect does not replace
the expanded set and does not highlight the matched node — the
truthiness gate on the matched id treats 0 as failure. -/
theorem c7_counterexample :
    parseRosettaNetHtml zeroTables = Except.ok zeroNodes ∧
      pathWalk zeroNodes (pathSegments "Alpha/") ∅ 0 none = ({0}, some 0) ∧
      runSearch zeroNodes "Alpha/" (ViewState.mk {5} {9})
        = some (ViewState.mk {5} ∅) ∧
      ({5} : Finset Nat) ≠ {0} ∧ (∅ : Finset Nat) ≠ ({0} : Finset Nat) :=
  ⟨rfl, by decide, by decide, by decide, by decide⟩

/-- Claim C7 (amended): in path mode, when the walk resolves at least
one segment and the last resolved id is non-zero, the expanded set is
replaced by the accumulated expansions and the highlighted set becomes
that singleton; when no segment resolves — or when the last resolved
id is 0, which the truthiness gate conflates with failure — the
highlighted set is emptied and the expanded set is left unchanged. -/
theorem c7_path_final_effect (data : List Node) (term : String) (st : ViewState) :
    ((pathWalk data (pathSegments term) ∅ 0 none).2 = none →
        pathSearch data term st = ViewState.mk st.expandedIds ∅) ∧
      ((pathWalk data (pathSegments term) ∅ 0 none).2 = some 0 →
        pathSearch data term st = ViewState.mk st.expandedIds ∅) ∧
      (∀ k, (pathWalk data (pathSegments term) ∅ 0 none).2 = some k → k ≠ 0 →
        pathSearch data term st
          = ViewState.mk (pathWalk data (pathSegments term) ∅ 0 none).1 {k}) := by
  refine ⟨?_, ?_, ?_⟩
  · intro h
    unfold pathSearch
    rw [h]
  · intro h
    unfold pathSearch
    rw [h]
    simp
  · intro k h hk
    unfold pathSearch
    rw [h]
    simp [hk]

/-- Witness for C7 on the round-trip tree with the root-matching
query. -/
theorem c7_witness :
    (pathWalk rtNodes (pathSegments "Root/ServiceHeader/ProcessControl") ∅ 0
          none).2 = some 3 ∧
      (3 : Nat) ≠ 0 ∧
      pathSearch rtNodes "Root/ServiceHeader/ProcessControl" (ViewState.mk ∅ ∅)
        = ViewState.mk
            (pathWalk rtNodes (pathSegments "Root/ServiceHeader/ProcessControl")
              ∅ 0 none).1 {3} :=
  ⟨by decide, by decide,
    (c7_path_final_effect rtNodes "Root/ServiceHeader/ProcessControl"
        (ViewState.mk ∅ ∅)).2.2 3 (by decide) (by decide)⟩

/-- Claim C8: when at a segment neither the compound match nor the
single match succeeds, but the current node has a child literally
named `Choice` or `(Choice)` whose own children contain a single-rule
match for the segment, the walk descends through it: both the Choice
node's id and the matched grandchild's id join the expanded set, the
grandchild becomes the current node, and exactly one segment is
consumed. -/
theorem c8_choice_fallback (data : List Node) (seg : String) (rest : List String)
    (exp : Finset Nat) (cur : Nat) (m : Option Nat) (ch mc : Node)
    (hcomp : findCompound data cur seg rest = none)
    (hsingle : findSingleName data cur seg = none)
    (hchoice : findChoice data cur = some ch)
    (hin : findSingleName data ch.id seg = some mc) :
    pathWalk data (seg :: rest) exp cur m
      = pathWalk data rest (insert mc.id (insert ch.id exp)) mc.id (some mc.id) := by
  cases rest with
  | nil => simp [pathWalk, hsingle, hchoice, hin]
  | cons next rest2 =>
    have hc : findSingleName data cur (seg ++ "." ++ next) = none := by
      simpa [findCompound] using hcomp
    simp [pathWalk, hc, hsingle, hchoice, hin]

/-- Witness for C8: on the Choice-wrapped tree, resolving segment
`ProcessControl` below `ServiceHeader` descends through the `Choice`
node. -/
theorem c8_witness :
    parseRosettaNetHtml choiceTables = Except.ok choiceNodes ∧
      findCompound choiceNodes 1 "ProcessControl" [] = none ∧
      findSingleName choiceNodes 1 "ProcessControl" = none ∧
      findChoice choiceNodes 1 = some ⟨2, 1, "2", 1, "Choice", ""⟩ ∧
      findSingleName choiceNodes 2 "ProcessControl"
        = some ⟨3, 2, "3", 2, "ProcessControl", ""⟩ ∧
      pathWalk choiceNodes ["ProcessControl"] {1} 1 (some 1)
        = pathWalk choiceNodes []
            (insert 3 (insert 2 ({1} : Finset Nat))) 3 (some 3) :=
  ⟨rfl, rfl, by decide, by decide, by decide,
    c8_choice_fallback choiceNodes "ProcessControl" [] {1} 1 (some 1)
      ⟨2, 1, "2", 1, "Choice", ""⟩ ⟨3, 2, "3", 2, "ProcessControl", ""⟩
      (by decide) (by decide) (by decide) (by decide)⟩

/-- Counterexample to C9 as stated: the spec's rule matches the node
with field number `1A` against the query `1A` as typed, but the code
compares the field number against the lowercased query `1a`, so the
node is not highlighted. -/
theorem c9_counterexample :
    specKeywordMatch "1A" upperFieldNode = true ∧
      runSearch [upperFieldNode] "1A" (ViewState.mk ∅ ∅)
        = some (ViewState.mk ∅ ∅) ∧
      (ViewState.mk ∅ ∅).highlightedIds = (∅ : Finset Nat) :=
  ⟨by decide, by decide, rfl⟩

/-- Claim C9 (amended): in keyword mode a node id is highlighted iff
some node carrying it matches the lowercased query: the lowercased
name contains it, or the field number contains it literally — i.e. the
field-number comparison is against the lowercased query, not the query
as typed. -/
theorem c9_keyword_highlighting (data : List Node) (q : String)
    (st res : ViewState) (h : keywordSearch data q st = some res) (i : Nat) :
    i ∈ res.highlightedIds ↔
      ∃ item ∈ data, item.id = i ∧
        (jsIncludes (jsToLower item.name) (jsToLower q) = true ∨
          jsIncludes item.fieldNo (jsToLower q) = true) := by
  unfold keywordSearch at h
  cases hk : keywordExpand data (data.filter (keywordMatch (jsToLower q)))
      st.expandedIds with
  | none => rw [hk] at h; exact absurd h (by simp)
  | some exp2 =>
    rw [hk] at h
    have hres : res = ViewState.mk exp2
        (((data.filter (keywordMatch (jsToLower q))).map Node.id).toFinset) := by
      cases h
      rfl
    subst hres
    show i ∈ ((data.filter (keywordMatch (jsToLower q))).map Node.id).toFinset ↔ _
    rw [List.mem_toFinset, List.mem_map]
    constructor
    · rintro ⟨item, hitem, rfl⟩
      rcases List.mem_filter.1 hitem with ⟨hd, hmatch1⟩
      refine ⟨item, hd, rfl, ?_⟩
      simpa [keywordMatch] using hmatch1
    · rintro ⟨item, hd, rfl, hOr⟩
      refine ⟨item, List.mem_filter.2 ⟨hd, ?_⟩, rfl⟩
      simpa [keywordMatch] using hOr

/-- Witness for C9 on the round-trip tree with the query `Service`. -/
theorem c9_witness :
    keywordSearch rtNodes "Service" (ViewState.mk ∅ ∅)
        = some (ViewState.mk {1} {2}) ∧
      ((2 : Nat) ∈ (ViewState.mk {1} {2}).highlightedIds ↔
        ∃ item ∈ rtNodes, item.id = 2 ∧
          (jsIncludes (jsToLower item.name) (jsToLower "Service") = true ∨
            jsIncludes item.fieldNo (jsToLower "Service") = true)) :=
  ⟨by decide,
    c9_keyword_highlighting rtNodes "Service" (ViewState.mk ∅ ∅)
      (ViewState.mk {1} {2}) (by decide) 2⟩

/-- Claim C10: when the path walk's last successfully resolved id is 0
— reachable when a row's field-number token strips to the digits `0` —
the success gate treats the resolution as a failure: the highlighted
set is emptied and the expanded set is left unchanged, even though at
least one segment resolved. -/
theorem c10_zero_id_gate (data : List Node) (term : String) (st : ViewState)
    (h : (pathWalk data (pathSegments term) ∅ 0 none).2 = some 0) :
    pathSearch data term st = ViewState.mk st.expandedIds ∅ := by
  unfold pathSearch
  rw [h]
  simp

/-- Witness for C10 at the zero-id document. -/
theorem c10_witness :
    parseRosettaNetHtml zeroTables = Except.ok zeroNodes ∧
      (pathWalk zeroNodes (pathSegments "Alpha/") ∅ 0 none).2 = some 0 ∧
      pathSearch zeroNodes "Alpha/" (ViewState.mk {7} {9})
        = ViewState.mk {7} ∅ :=
  ⟨rfl, by decide,
    c10_zero_id_gate zeroNodes "Alpha/" (ViewState.mk {7} {9}) (by decide)⟩
